import Mathlib

/-!
# Verification of the jupyterlab-s3-browser request handlers

Shallow embedding of `jupyterlab_s3_browser/handlers.py`.

The object store is modelled as an association list from keys (character
lists, one key per stored object, full `bucket/key` strings) to byte
contents (lists of naturals below 256).  The s3fs / boto3 primitives used
by the handlers (`listdir`, `open`/read, `rm`, `exists`, `touch`, `mkdir`,
`cp`, `move`, bucket-scoped bulk delete) are external collaborators; they
are modelled here as pure functions over that store, following the
behaviour the handlers rely on.  Exceptions are modelled with an explicit
error type threaded through `Except`; partially applied side effects that
happen before an exception is raised are kept by returning the
intermediate store alongside the error, exactly as the Python code leaves
the real store modified.

Python strings are modelled as `List Char`; byte strings as `List Nat`.
JSON bodies of responses are modelled as an inductive `Resp` with one
constructor per distinct dictionary shape produced by the handlers.
-/

set_option maxRecDepth 10000

namespace S3B

/-- Python strings, as character lists. -/
abbrev Str := List Char

/-- Byte strings. -/
abbrev Bytes := List Nat

/-- The flat object store: an association list from full object keys
(`bucket/key` strings) to object bodies. -/
abbrev Store := List (Str × Bytes)

/-- Characters of a string literal. -/
def chars (s : String) : Str := s.data

/-- First value bound to a key in the store (the store has one entry per
object; lookup returns the first binding). -/
def lookupKey : Store → Str → Option Bytes
  | [], _ => none
  | (k, v) :: rest, key => if k = key then some v else lookupKey rest key

/-- Remove every binding of a key. -/
def removeKey (st : Store) (key : Str) : Store :=
  st.filter (fun kv => decide (kv.1 ≠ key))

/-- Overwrite (or create) the object at a key. -/
def putKey (st : Store) (key : Str) (v : Bytes) : Store :=
  (key, v) :: removeKey st key

/-- Does an object exist at exactly this key? -/
def existsKey (st : Store) (key : Str) : Bool :=
  (lookupKey st key).isSome

/-! ## base64 (Python `base64.encodebytes` / `base64.decodebytes`) -/

/-- The base64 alphabet. -/
def b64chars : Str :=
  chars "ABCDEFGHIJKLMNOPQRSTUVWXYZabcdefghijklmnopqrstuvwxyz0123456789+/"

/-- Character for a 6-bit value. -/
def b64char (v : Nat) : Char := b64chars.getD v '?'

def b64valAux : Str → Nat → Char → Option Nat
  | [], _, _ => none
  | a :: rest, i, c => if a = c then some i else b64valAux rest (i + 1) c

/-- 6-bit value of an alphabet character (`none` for padding, newlines and
any other non-alphabet character, which the decoder discards). -/
def b64val (c : Char) : Option Nat := b64valAux b64chars 0 c

/-- Core base64 encoding: big-endian 3-byte groups to 4 characters, the
final partial group padded with `=`. -/
def b64encodeCore : Bytes → Str
  | [] => []
  | [a] => [b64char (a / 4), b64char (a % 4 * 16), '=', '=']
  | [a, b] => [b64char (a / 4), b64char (a % 4 * 16 + b / 16), b64char (b % 16 * 4), '=']
  | a :: b :: c :: rest =>
      b64char (a / 4) :: b64char (a % 4 * 16 + b / 16) ::
      b64char (b % 16 * 4 + c / 64) :: b64char (c % 64) :: b64encodeCore rest

/-- Python `base64.encodebytes`: encode 57-byte chunks, terminating every
chunk (76 output characters) with a newline. -/
def encodebytes (b : Bytes) : Str :=
  if _h : b.length = 0 then []
  else b64encodeCore (b.take 57) ++ '\n' :: encodebytes (b.drop 57)
termination_by b.length
decreasing_by
  simp only [List.length_drop]
  omega

/-- Decode a stream of 6-bit values back to bytes (a trailing single
value, which a valid encoding never produces, is dropped). -/
def decodeCore : List Nat → Bytes
  | s1 :: s2 :: s3 :: s4 :: rest =>
      (s1 * 4 + s2 / 16) :: (s2 % 16 * 16 + s3 / 4) :: (s3 % 4 * 64 + s4) :: decodeCore rest
  | [s1, s2, s3] => [s1 * 4 + s2 / 16, s2 % 16 * 16 + s3 / 4]
  | [s1, s2] => [s1 * 4 + s2 / 16]
  | _ => []

/-- Python `base64.decodebytes`: discard non-alphabet characters (padding,
newlines) and decode the 6-bit values. -/
def decodebytes (s : Str) : Bytes :=
  decodeCore (s.filterMap b64val)

/-! ## The modelled s3fs primitives -/

/-- Exceptions observable at the handler boundary.  `s3NotFound` models
`S3ResourceNotFoundException`, `dirNotEmpty` models
`DirectoryNotEmptyException`, `other` models every other exception with
its `str(e)` message. -/
inductive Exc where
  | s3NotFound
  | dirNotEmpty
  | other (msg : Str)
  deriving Repr, DecidableEq

/-- `str(e)` of a modelled exception (the two marker exception classes are
raised with no arguments, so their `str` is empty). -/
def excMsg : Exc → Str
  | .s3NotFound => []
  | .dirNotEmpty => []
  | .other m => m

/-- A listing entry as returned by `s3fs.listdir`: the full object key and
the entry type (`"file"` or `"directory"`). -/
structure LEntry where
  Key : Str
  type : Str
  deriving Repr, DecidableEq

/-- Strip all trailing slashes (fsspec `_strip_protocol`). -/
def rstripSlash (p : Str) : Str :=
  (p.reverse.dropWhile (fun c => c = '/')).reverse

/-- Leading path segment: everything before the first `/`. -/
def firstSeg (s : Str) : Str := s.takeWhile (fun c => c ≠ '/')

/-- Top-level containers present in the store (first key segments). -/
def bucketsOf (st : Store) : List Str :=
  (st.map (fun kv => firstSeg kv.1)).dedup

/-- Keys that start with the given listing position. -/
def childKeys (st : Store) (pre : Str) : List Str :=
  st.filterMap (fun kv => if pre.isPrefixOf kv.1 then some kv.1 else none)

/-- The immediate children of a listing position `pre` (a prefix ending
in `/`): keys under `pre` with no further `/` become file entries
(including the `pre` placeholder itself), deeper keys become
deduplicated common-prefix directory entries. -/
def listEntries (st : Store) (pre : Str) : List LEntry :=
  let ks := childKeys st pre
  ((ks.filter (fun k => !(k.drop pre.length).contains '/')).map
      (fun k => LEntry.mk k (chars "file"))) ++
  (((ks.filterMap (fun k =>
      if (k.drop pre.length).contains '/' then some (pre ++ firstSeg (k.drop pre.length))
      else none)).dedup).map
      (fun d => LEntry.mk d (chars "directory")))

/-- `s3fs.listdir`: list the immediate children of a path.  An empty path
lists the buckets; otherwise the children of `path + "/"` are listed.
When nothing matches, fall back to exact-object info, raising
`FileNotFoundError` if that is absent as well. -/
def listdir (st : Store) (p : Str) : Except Exc (List LEntry) :=
  let p1 := rstripSlash p
  if p1.isEmpty then
    .ok ((bucketsOf st).map (fun b => LEntry.mk b (chars "directory")))
  else
    let entries := listEntries st (p1 ++ [ '/' ])
    if entries.isEmpty then
      match lookupKey st p1 with
      | some _ => .ok [LEntry.mk p1 (chars "file")]
      | none => .error (.other (chars "FileNotFoundError"))
    else .ok entries

/-- `s3fs.open(path, "rb")` followed by `read()`. -/
def fsOpenRead (st : Store) (p : Str) : Except Exc Bytes :=
  match lookupKey st p with
  | some v => .ok v
  | none => .error (.other (chars "FileNotFoundError"))

/-- `s3fs.exists` for the exact-key marker probes done by the handlers. -/
def fsExists (st : Store) (k : Str) : Bool := existsKey st k

/-- `s3fs.rm` of a single key. -/
def fsRm (st : Store) (k : Str) : Except Exc Store :=
  if existsKey st k then .ok (removeKey st k)
  else .error (.other (chars "FileNotFoundError"))

/-- `s3fs.touch`: write a zero-byte object. -/
def fsTouch (st : Store) (k : Str) : Store := putKey st k []

/-- `s3fs.mkdir` of a prefix: a no-op on the flat store (prefixes are
implicit). -/
def fsMkdir (st : Store) (_p : Str) : Store := st

/-- The key rewrites performed by a recursive `s3fs.cp(src, dst)`: the
exact source object (if any) goes to `dst`, and every descendant
`src ++ "/" ++ r` goes to `dst` with the same suffix appended. -/
def cpRewrites (st : Store) (src dst : Str) : Store :=
  (match lookupKey st src with
   | some v => [(dst, v)]
   | none => []) ++
  st.filterMap (fun kv =>
    if (src ++ [ '/' ]).isPrefixOf kv.1 then some (dst ++ kv.1.drop src.length, kv.2)
    else none)

/-- `s3fs.cp(src, dst, recursive=True)`: copy the source object and all
objects under it; `FileNotFoundError` when the source matches nothing. -/
def fsCp (st : Store) (src dst : Str) : Except Exc Store :=
  if (cpRewrites st src dst).isEmpty then .error (.other (chars "FileNotFoundError"))
  else .ok (cpRewrites st src dst ++
    st.filter (fun kv => !(((cpRewrites st src dst).map Prod.fst).contains kv.1)))

/-- `s3fs.move(src, dst, recursive=True)`: recursive copy, then removal of
the source object and everything under it. -/
def fsMv (st : Store) (src dst : Str) : Except Exc Store :=
  match fsCp st src dst with
  | .ok st2 =>
      .ok (st2.filter (fun kv =>
        !(kv.1 == src) && !((src ++ [ '/' ]).isPrefixOf kv.1)))
  | .error e => .error e

/-! ## Request and response shapes -/

/-- The control headers read by `S3Handler.put` / `S3Handler.get`:
`X-Custom-S3-Copy-Src`, `X-Custom-S3-Move-Src` (value is the source path)
and `X-Custom-S3-Is-Dir` (presence only). -/
structure Headers where
  copySrc : Option Str
  moveSrc : Option Str
  isDir : Bool
  deriving Repr, DecidableEq

/-- A jupyter-format listing entry produced by
`convertS3FStoJupyterFormat`. -/
structure JEntry where
  name : Str
  path : Str
  type : Str
  deriving Repr, DecidableEq

/-- Last path segment of a key: Python `key.rsplit("/", 1)[-1]`. -/
def rsplitLast (k : Str) : Str :=
  (k.reverse.takeWhile (fun c => c ≠ '/')).reverse

/-- `convertS3FStoJupyterFormat`: name is the last path segment, path the
full key, type taken from the store entry. -/
def convertS3FStoJupyterFormat (e : LEntry) : JEntry :=
  JEntry.mk (rsplitLast e.Key) e.Key e.type

/-- The JSON bodies produced by the handlers, one constructor per
distinct dictionary shape.  `errDirNotEmptyDelete` is the DELETE
handler's duplicate-key dictionary literal, which serialises as a single
`DIR_NOT_EMPTY` error field; `errDirNotEmptyPut` is the PUT handler's
400 response with the `Directory not empty` message. -/
inductive Resp where
  | emptyObj
  | fileObj (path : Str) (ftype : Str) (content : Str)
  | listing (entries : List JEntry)
  | err404
  | errDirNotEmptyPut
  | errDirNotEmptyDelete
  | err500 (msg : Str)
  deriving Repr, DecidableEq

/-- Is the response one of the error dictionaries? -/
def Resp.isError : Resp → Bool
  | .err404 => true
  | .errDirNotEmptyPut => true
  | .errDirNotEmptyDelete => true
  | .err500 _ => true
  | _ => false

/-! ## GET -/

/-- Python `path.endswith("/")`. -/
def endsWithSlash (p : Str) : Bool := p.getLast? == some '/'

/-- Condition of the GET file branch:
`(path and not path.endswith("/")) and ("X-Custom-S3-Is-Dir" not in headers)`. -/
def fileCond (path : Str) (h : Headers) : Bool :=
  (!path.isEmpty && !endsWithSlash path) && !h.isDir

/-- The GET exception mapping: `S3ResourceNotFoundException` becomes the
404 object, every other exception the 500 object with `str(e)`. -/
def getHandleExc : Exc → Resp
  | .s3NotFound => .err404
  | .dirNotEmpty => .err500 (excMsg .dirNotEmpty)
  | .other m => .err500 m

/-- The GET file branch as a function of the outcome of the underlying
open-and-read: read bytes are returned base64 encoded. -/
def getFileBranch (path : Str) (fetch : Except Exc Bytes) : Resp :=
  match fetch with
  | .ok body => .fileObj path (chars "file") (encodebytes body)
  | .error e => getHandleExc e

/-- The GET directory branch as a function of the listing outcome: map to
jupyter entries, drop entries with an empty name. -/
def getDirBranch (r : Except Exc (List LEntry)) : Resp :=
  match r with
  | .ok es =>
      .listing ((es.map convertS3FStoJupyterFormat).filter (fun x => !x.name.isEmpty))
  | .error e => getHandleExc e

/-- `S3Handler.get`. -/
def S3Handler.get (st : Store) (path : Str) (h : Headers) : Resp :=
  if fileCond path h then getFileBranch path (fsOpenRead st path)
  else getDirBranch (listdir st path)

/-! ## PUT -/

/-- The PUT exception mapping. -/
def putHandleExc : Exc → Resp
  | .s3NotFound => .err404
  | .dirNotEmpty => .errDirNotEmptyPut
  | .other m => .err500 m

/-- UTF-8 bytes of request content (the handlers only move ASCII content
through text mode; each character is stored as its code point). -/
def strBytes (c : Str) : Bytes := c.map Char.toNat

/-- Python `path.lower()`. -/
def toLowerStr (p : Str) : Str := p.map Char.toLower

/-- Read back the (copy or move) target and build its file response;
shared shape of the copy and move branches after the transfer. -/
def copyMoveReadBack (transfer : Except Exc Store) (st : Store) (target : Str) :
    Store × Resp :=
  match transfer with
  | .ok st2 =>
      (st2,
        match fsOpenRead st2 target with
        | .ok body => .fileObj target (chars "file") (encodebytes body)
        | .error e => putHandleExc e)
  | .error e => (st, putHandleExc e)

/-- `S3Handler.put`.  The body, when present, is the parsed `content`
field of the request JSON. -/
def S3Handler.put (st : Store) (path : Str) (h : Headers) (body : Option Str) :
    Store × Resp :=
  match h.copySrc with
  | some source =>
      let target := if source.contains '/' then path else path ++ chars "/.keep"
      copyMoveReadBack (fsCp st source target) st target
  | none =>
    match h.moveSrc with
    | some source => copyMoveReadBack (fsMv st source path) st path
    | none =>
      if h.isDir then
        let p1 := toLowerStr path
        let p2 := if endsWithSlash p1 then p1 else p1 ++ [ '/' ]
        (fsTouch (fsMkdir st p2) (p2 ++ chars ".keep"), .emptyObj)
      else
        match body with
        | some c => (putKey st path (strBytes c), .fileObj path (chars "file") c)
        | none => (st, .emptyObj)

/-! ## DELETE -/

/-- The DELETE exception mapping (the non-empty-directory case produces
the duplicate-key dictionary literal). -/
def deleteHandleExc : Exc → Resp
  | .s3NotFound => .err404
  | .dirNotEmpty => .errDirNotEmptyDelete
  | .other m => .err500 m

/-- The directory marker key probed by DELETE: `path + "/.keep"`. -/
def keepKey (path : Str) : Str := path ++ chars "/.keep"

/-- First step of DELETE: remove the marker at `path + "/.keep"` when it
exists. -/
def deleteKeepRemoved (st : Store) (path : Str) : Store :=
  if fsExists st (keepKey path) then removeKey st (keepKey path) else st

/-- `objects_matching_prefix[0]["Key"]` (only inspected under a length
guard). -/
def firstKey : List LEntry → Str
  | [] => []
  | e :: _ => e.Key

/-- The repeated test of `S3Handler.delete`:
`len(objs) > 1 or (len(objs) == 1 and objs[0]["Key"] != k)`.
With `k := path` this is the `is_directory` test, with `k := path + "/"`
the non-empty test. -/
def listingExceeds (objs : List LEntry) (k : Str) : Bool :=
  decide (objs.length > 1) || (decide (objs.length = 1) && decide (firstKey objs ≠ k))

/-- Python `path.split("/", 1)` into bucket name and in-bucket key. -/
def splitBucket (path : Str) : Str × Str :=
  (path.takeWhile (fun c => c ≠ '/'), (path.dropWhile (fun c => c ≠ '/')).tail)

/-- boto3 `bucket.objects.filter(Prefix=pfx).delete()`: remove every key
of the bucket whose in-bucket part starts with `pfx`. -/
def bulkDelete (st : Store) (bucket pfx : Str) : Store :=
  st.filter (fun kv => !((bucket ++ '/' :: pfx).isPrefixOf kv.1))

/-- `S3Handler.delete`.  The marker removal happens before the listing,
so its effect persists even when the subsequent check raises
(`deleteKeepRemoved st path` plays the role of the mutated store). -/
def S3Handler.delete (st : Store) (path : Str) : Store × Resp :=
  match listdir (deleteKeepRemoved st path) (path ++ [ '/' ]) with
  | .error e => (deleteKeepRemoved st path, deleteHandleExc e)
  | .ok objs =>
    if listingExceeds objs path then
      if listingExceeds objs (path ++ [ '/' ]) then
        (deleteKeepRemoved st path, deleteHandleExc .dirNotEmpty)
      else if decide (path.count '/' > 1) then
        (bulkDelete (deleteKeepRemoved st path) (splitBucket path).1 (splitBucket path).2,
          .emptyObj)
      else
        match fsRm (deleteKeepRemoved st path) path with
        | .ok st2 => (st2, .emptyObj)
        | .error e => (deleteKeepRemoved st path, deleteHandleExc e)
    else
      match fsRm (deleteKeepRemoved st path) path with
      | .ok st2 => (st2, .emptyObj)
      | .error e => (deleteKeepRemoved st path, deleteHandleExc e)

/-! ## Authentication -/

/-- The traitlets configuration: empty strings are falsy. -/
structure S3Config where
  endpoint_url : Str
  client_id : Str
  client_secret : Str
  session_token : Str
  deriving Repr, DecidableEq

/-- `config.endpoint_url and config.client_id and config.client_secret`. -/
def configured (c : S3Config) : Bool :=
  !c.endpoint_url.isEmpty && !c.client_id.isEmpty && !c.client_secret.isEmpty

def isSpaceChar (c : Char) : Bool :=
  c = ' ' || c = '\t' || c = '\n' || c = '\r'

/-- Python `str.strip()`. -/
def stripWs (s : Str) : Str :=
  ((s.dropWhile isSpaceChar).reverse.dropWhile isSpaceChar).reverse

/-- The access-key value of a credentials-file line:
`line.split("=", 1)[1].strip()` for lines starting with
`aws_access_key_id`. -/
def accessKeyOfLine (line : Str) : Option Str :=
  if (chars "aws_access_key_id").isPrefixOf line then
    some (stripWs ((line.dropWhile (fun c => c ≠ '=')).tail))
  else none

/-- An access key that starts with neither `AKIA` nor `ASIA`. -/
def badKey (v : Str) : Bool :=
  !(chars "AKIA").isPrefixOf v && !(chars "ASIA").isPrefixOf v

/-- The credential-file scan of `has_aws_s3_role_access`: true when some
access-key line carries an invalid prefix (the loop returns `False` at
the first such line). -/
def scanCredLines : List Str → Bool
  | [] => false
  | l :: rest =>
    match accessKeyOfLine l with
    | some v => if badKey v then true else scanCredLines rest
    | none => scanCredLines rest

/-- `has_aws_s3_role_access`.  `credFile` is the content of
`~/.aws/credentials` when that file exists; `ambientOk` is whether
`_test_aws_s3_role_access()` runs without raising. -/
def has_aws_s3_role_access (credFile : Option (List Str)) (ambientOk : Bool) : Bool :=
  match credFile with
  | some lines => if scanCredLines lines then false else ambientOk
  | none => ambientOk

/-- `AuthHandler.get`: the `authenticated` flag of the response.
`explicitOk` is whether `test_s3_credentials` runs without raising. -/
def AuthHandler.get (credFile : Option (List Str)) (ambientOk : Bool)
    (config : S3Config) (explicitOk : Bool) : Bool :=
  let authenticated := has_aws_s3_role_access credFile ambientOk
  if !authenticated then
    if configured config then explicitOk else false
  else authenticated

/-- The ambient attempt is skipped (treated as failed) exactly when the
credential file exists and its scan finds an invalid access key. -/
def skipAmbient (credFile : Option (List Str)) : Bool :=
  match credFile with
  | some lines => scanCredLines lines
  | none => false

/-! ## Store lemmas -/

theorem lookupKey_putKey_self (st : Store) (k : Str) (v : Bytes) :
    lookupKey (putKey st k v) k = some v := by
  simp [putKey, lookupKey]

theorem lookupKey_removeKey_self (st : Store) (k : Str) :
    lookupKey (removeKey st k) k = none := by
  induction st with
  | nil => rfl
  | cons kv rest ih =>
    by_cases h : kv.1 = k
    · simpa [removeKey, List.filter, h] using ih
    · simpa [removeKey, List.filter, h, lookupKey] using ih

theorem removeKey_eq_self (st : Store) (k : Str) (h : lookupKey st k = none) :
    removeKey st k = st := by
  induction st with
  | nil => rfl
  | cons kv rest ih =>
    obtain ⟨a, b⟩ := kv
    by_cases hk : a = k
    · simp [lookupKey, hk] at h
    · rw [lookupKey, if_neg hk] at h
      unfold removeKey
      rw [List.filter_cons_of_pos (by simpa using hk)]
      have hr := ih h
      unfold removeKey at hr
      rw [hr]

theorem mem_removeKey (st : Store) (k key : Str) (v : Bytes)
    (h : (k, v) ∈ st) (hne : k ≠ key) : (k, v) ∈ removeKey st key := by
  exact List.mem_filter.mpr ⟨h, by simpa using hne⟩

theorem removeKey_removeKey (st : Store) (k : Str) :
    removeKey (removeKey st k) k = removeKey st k :=
  removeKey_eq_self _ _ (lookupKey_removeKey_self st k)

theorem removeKey_putKey (st : Store) (k : Str) (v : Bytes) :
    removeKey (putKey st k v) k = removeKey st k := by
  simp [putKey, removeKey, List.filter, removeKey_removeKey st k]

theorem putKey_putKey (st : Store) (k : Str) (v : Bytes) :
    putKey (putKey st k v) k v = putKey st k v := by
  simp only [putKey, removeKey, List.filter]
  simp [show removeKey (removeKey st k) k = removeKey st k from removeKey_removeKey st k,
    removeKey]

theorem lookupKey_append (l1 l2 : Store) (k : Str) :
    lookupKey (l1 ++ l2) k =
      (match lookupKey l1 k with
       | some v => some v
       | none => lookupKey l2 k) := by
  induction l1 with
  | nil => simp [lookupKey]
  | cons kv rest ih =>
    by_cases h : kv.1 = k
    · simp [lookupKey, h]
    · simp [lookupKey, h, ih]

theorem deleteKeepRemoved_eq (st : Store) (path : Str) :
    deleteKeepRemoved st path = removeKey st (keepKey path) := by
  unfold deleteKeepRemoved
  by_cases h : fsExists st (keepKey path)
  · simp [h]
  · have hnone : lookupKey st (keepKey path) = none := by
      simp only [fsExists, existsKey, Option.isSome] at h
      cases hl : lookupKey st (keepKey path) with
      | none => rfl
      | some v => rw [hl] at h; simp at h
    simp [h, removeKey_eq_self st _ hnone]

/-! ## Prefix helpers -/

theorem isPrefixOf_append_self (p t : Str) : p.isPrefixOf (p ++ t) = true := by
  induction p with
  | nil => simp [List.isPrefixOf]
  | cons a p ih => simp [List.isPrefixOf, ih]

theorem exists_of_isPrefixOf (p l : Str) (h : p.isPrefixOf l = true) :
    ∃ t, l = p ++ t := by
  induction p generalizing l with
  | nil => exact ⟨l, rfl⟩
  | cons a p ih =>
    cases l with
    | nil => simp [List.isPrefixOf] at h
    | cons b l =>
      simp only [List.isPrefixOf, Bool.and_eq_true, beq_iff_eq] at h
      obtain ⟨t, ht⟩ := ih l h.2
      exact ⟨t, by simp [h.1, ht]⟩

theorem ne_of_length_ne (l1 l2 : Str) (h : l1.length ≠ l2.length) : l1 ≠ l2 := by
  intro he
  exact h (he ▸ rfl)

theorem rstripSlash_append_slash (path : Str) (h : path.getLast? ≠ some '/') :
    rstripSlash (path ++ [ '/' ]) = path := by
  unfold rstripSlash
  have h1 : (path ++ [ '/' ]).reverse = '/' :: path.reverse := by
    simp
  rw [h1]
  have h2 : List.dropWhile (fun c => decide (c = '/')) ('/' :: path.reverse)
      = List.dropWhile (fun c => decide (c = '/')) path.reverse := by
    simp [List.dropWhile]
  rw [h2]
  cases hrev : path.reverse with
  | nil =>
    have : path = [] := by simpa using congrArg List.reverse hrev
    simp [this]
  | cons c l =>
    have hc : c ≠ '/' := by
      intro hc
      apply h
      rw [← List.head?_reverse, hrev, hc]
      rfl
    rw [List.dropWhile_cons_of_neg (by simpa using hc), ← hrev, List.reverse_reverse]

/-! ## base64 lemmas -/

theorem b64val_b64char : ∀ v : Nat, v < 64 → b64val (b64char v) = some v := by decide

theorem b64val_eqsign : b64val '=' = none := by decide

theorem b64val_newline : b64val '\n' = none := by decide

theorem b64encodeCore_append (x y : Bytes) (h : x.length % 3 = 0) :
    b64encodeCore (x ++ y) = b64encodeCore x ++ b64encodeCore y := by
  induction x using b64encodeCore.induct with
  | case1 => simp [b64encodeCore]
  | case2 a => simp at h
  | case3 a b => simp at h
  | case4 a b c rest ih =>
    have hr : rest.length % 3 = 0 := by
      simp only [List.length_cons] at h
      omega
    simp only [List.cons_append, b64encodeCore, List.append_eq, ih hr, List.append_assoc]

theorem encodebytes_filterMap (b : Bytes) :
    (encodebytes b).filterMap b64val = (b64encodeCore b).filterMap b64val := by
  induction b using encodebytes.induct with
  | case1 b hb =>
    have : b = [] := List.eq_nil_of_length_eq_zero hb
    subst this
    simp [encodebytes, b64encodeCore]
  | case2 b hb ih =>
    rw [encodebytes]
    simp only [hb, dif_neg, not_false_iff]
    by_cases hlen : b.length ≤ 57
    · have htake : b.take 57 = b := List.take_of_length_le hlen
      have hdrop : b.drop 57 = [] := List.drop_eq_nil_of_le hlen
      rw [htake, hdrop] at *
      simp [encodebytes, List.filterMap_append, List.filterMap_cons, b64val_newline, ih]
    · have htl : (b.take 57).length % 3 = 0 := by
        rw [List.length_take]
        omega
      rw [List.filterMap_append, List.filterMap_cons, b64val_newline, ih,
        ← List.filterMap_append, ← b64encodeCore_append _ _ htl, List.take_append_drop]

theorem decode_encodeCore (b : Bytes) (h : ∀ x ∈ b, x < 256) :
    decodeCore ((b64encodeCore b).filterMap b64val) = b := by
  induction b using b64encodeCore.induct with
  | case1 => rfl
  | case2 a =>
    have ha : a < 256 := h a (by simp)
    have h1 : a / 4 < 64 := by omega
    have h2 : a % 4 * 16 < 64 := by omega
    simp only [b64encodeCore, List.filterMap_cons, b64val_b64char _ h1, b64val_b64char _ h2,
      b64val_eqsign, List.filterMap_nil]
    simp only [decodeCore]
    congr 1
    omega
  | case3 a b =>
    have ha : a < 256 := h a (by simp)
    have hb : b < 256 := h b (by simp)
    have h1 : a / 4 < 64 := by omega
    have h2 : a % 4 * 16 + b / 16 < 64 := by omega
    have h3 : b % 16 * 4 < 64 := by omega
    simp only [b64encodeCore, List.filterMap_cons, b64val_b64char _ h1, b64val_b64char _ h2,
      b64val_b64char _ h3, b64val_eqsign, List.filterMap_nil]
    simp only [decodeCore]
    congr 1
    · omega
    · congr 1
      omega
  | case4 a b c rest ih =>
    have ha : a < 256 := h a (by simp)
    have hb : b < 256 := h b (by simp)
    have hc : c < 256 := h c (by simp)
    have h1 : a / 4 < 64 := by omega
    have h2 : a % 4 * 16 + b / 16 < 64 := by omega
    have h3 : b % 16 * 4 + c / 64 < 64 := by omega
    have h4 : c % 64 < 64 := by omega
    have hrest : ∀ x ∈ rest, x < 256 := fun x hx => h x (by simp [hx])
    simp only [b64encodeCore, List.filterMap_cons, b64val_b64char _ h1, b64val_b64char _ h2,
      b64val_b64char _ h3, b64val_b64char _ h4]
    simp only [decodeCore, ih hrest]
    congr 1
    · omega
    · congr 1
      · omega
      · congr 1
        omega

theorem base64_roundtrip (b : Bytes) (h : ∀ x ∈ b, x < 256) :
    decodebytes (encodebytes b) = b := by
  rw [decodebytes, encodebytes_filterMap, decode_encodeCore b h]

/-! ## Listing and DELETE lemmas -/

theorem listingExceeds_iff (objs : List LEntry) (x : Str) :
    listingExceeds objs x = true ↔
      (objs.length > 1 ∨ (objs.length = 1 ∧ firstKey objs ≠ x)) := by
  simp [listingExceeds]

theorem listingExceeds_of_mem (objs : List LEntry) (e : LEntry) (x : Str)
    (he : e ∈ objs) (hne : e.Key ≠ x) : listingExceeds objs x = true := by
  cases objs with
  | nil => cases he
  | cons a l =>
    cases l with
    | nil =>
      have hea : e = a := by simpa using he
      subst hea
      simp [listingExceeds, firstKey, hne]
    | cons b m =>
      have hlen : (a :: b :: m).length > 1 := by
        simp
      rw [listingExceeds_iff]
      exact Or.inl hlen

theorem firstSeg_ne_nil (t : Str) (ht0 : t ≠ []) (ht1 : t.head? ≠ some '/') :
    firstSeg t ≠ [] := by
  cases t with
  | nil => exact absurd rfl ht0
  | cons c t =>
    have hc : c ≠ '/' := by
      intro hc
      exact ht1 (by simp [hc])
    simp [firstSeg, List.takeWhile_cons, hc]

theorem mem_listEntries_of_child (st : Store) (pre t : Str) (v : Bytes)
    (hmem : (pre ++ t, v) ∈ st) (ht0 : t ≠ []) (ht1 : t.head? ≠ some '/') :
    ∃ e ∈ listEntries st pre, pre.length + 1 ≤ e.Key.length := by
  have hk_mem : (pre ++ t) ∈ childKeys st pre := by
    refine List.mem_filterMap.mpr ⟨(pre ++ t, v), hmem, ?_⟩
    simp [isPrefixOf_append_self]
  have hdrop : (pre ++ t).drop pre.length = t := List.drop_left pre t
  by_cases hc : t.contains '/'
  · refine ⟨LEntry.mk (pre ++ firstSeg t) (chars "directory"), ?_, ?_⟩
    · unfold listEntries
      refine List.mem_append.mpr (Or.inr ?_)
      refine List.mem_map.mpr ⟨pre ++ firstSeg t, ?_, rfl⟩
      refine List.mem_dedup.mpr ?_
      refine List.mem_filterMap.mpr ⟨pre ++ t, hk_mem, ?_⟩
      rw [hdrop, if_pos]
      exact hc
    · have h1 : 1 ≤ (firstSeg t).length :=
        Nat.one_le_iff_ne_zero.mpr
          (fun h0 => firstSeg_ne_nil t ht0 ht1 (List.eq_nil_of_length_eq_zero h0))
      simp only [List.length_append]
      omega
  · refine ⟨LEntry.mk (pre ++ t) (chars "file"), ?_, ?_⟩
    · unfold listEntries
      refine List.mem_append.mpr (Or.inl ?_)
      refine List.mem_map.mpr ⟨pre ++ t, ?_, rfl⟩
      refine List.mem_filter.mpr ⟨hk_mem, ?_⟩
      rw [hdrop]
      simpa using hc
    · have h1 : 1 ≤ t.length :=
        Nat.one_le_iff_ne_zero.mpr (fun h0 => ht0 (List.eq_nil_of_length_eq_zero h0))
      simp only [List.length_append]
      omega

theorem listdir_child (st : Store) (path t : Str) (v : Bytes)
    (hpath0 : path ≠ []) (hpath1 : path.getLast? ≠ some '/')
    (hmem : (path ++ '/' :: t, v) ∈ st) (ht0 : t ≠ []) (ht1 : t.head? ≠ some '/') :
    ∃ objs, listdir st (path ++ [ '/' ]) = Except.ok objs ∧
      ∃ e ∈ objs, path.length + 2 ≤ e.Key.length := by
  have hps : rstripSlash (path ++ [ '/' ]) = path := rstripSlash_append_slash path hpath1
  have hmem2 : ((path ++ [ '/' ]) ++ t, v) ∈ st := by
    simpa [List.append_assoc] using hmem
  obtain ⟨e, hes, helen⟩ := mem_listEntries_of_child st (path ++ [ '/' ]) t v hmem2 ht0 ht1
  have hne0 : listEntries st (path ++ [ '/' ]) ≠ [] := List.ne_nil_of_mem hes
  have hne : (listEntries st (path ++ [ '/' ])).isEmpty = false := by
    cases hE : (listEntries st (path ++ [ '/' ])).isEmpty with
    | false => rfl
    | true => exact absurd (List.isEmpty_iff.mp hE) hne0
  refine ⟨listEntries st (path ++ [ '/' ]), ?_, e, hes, ?_⟩
  · unfold listdir
    rw [hps, if_neg (by simp [hpath0]), if_neg (by simp [hne])]
  · simp only [List.length_append, List.length_cons] at helen ⊢
    omega

theorem isError_deleteHandleExc (e : Exc) : (deleteHandleExc e).isError = true := by
  cases e <;> rfl

theorem delete_nonempty (st : Store) (path t : Str) (v : Bytes)
    (hpath0 : path ≠ []) (hpath1 : path.getLast? ≠ some '/')
    (hmem : (path ++ '/' :: t, v) ∈ st) (ht0 : t ≠ []) (ht1 : t.head? ≠ some '/')
    (hkeep : path ++ '/' :: t ≠ keepKey path) :
    S3Handler.delete st path = (removeKey st (keepKey path), Resp.errDirNotEmptyDelete) := by
  have hmem1 : (path ++ '/' :: t, v) ∈ removeKey st (keepKey path) :=
    mem_removeKey st _ (keepKey path) v hmem hkeep
  obtain ⟨objs, hls, e, he, hlen⟩ :=
    listdir_child (removeKey st (keepKey path)) path t v hpath0 hpath1 hmem1 ht0 ht1
  have hne1 : e.Key ≠ path :=
    ne_of_length_ne e.Key path (by omega)
  have hne2 : e.Key ≠ path ++ [ '/' ] :=
    ne_of_length_ne e.Key (path ++ [ '/' ]) (by simp; omega)
  have hex1 : listingExceeds objs path = true := listingExceeds_of_mem objs e path he hne1
  have hex2 : listingExceeds objs (path ++ [ '/' ]) = true :=
    listingExceeds_of_mem objs e (path ++ [ '/' ]) he hne2
  unfold S3Handler.delete
  rw [deleteKeepRemoved_eq, hls]
  simp [hex1, hex2, deleteHandleExc]

theorem fsRm_cases (st : Store) (k : Str) :
    fsRm st k = .ok (removeKey st k) ∨
      fsRm st k = .error (.other (chars "FileNotFoundError")) := by
  unfold fsRm
  split
  · exact Or.inl rfl
  · exact Or.inr rfl

theorem delete_success_resp (st : Store) (path : Str)
    (h : (S3Handler.delete st path).2.isError = false) :
    (S3Handler.delete st path).2 = Resp.emptyObj := by
  unfold S3Handler.delete at h ⊢
  cases hls : listdir (deleteKeepRemoved st path) (path ++ [ '/' ]) with
  | error e =>
    rw [hls] at h
    simp [isError_deleteHandleExc e] at h
  | ok objs =>
    simp only [hls] at h ⊢
    by_cases h1 : listingExceeds objs path = true
    · by_cases h2 : listingExceeds objs (path ++ [ '/' ]) = true
      · rw [if_pos h1, if_pos h2] at h
        simp [deleteHandleExc, Resp.isError] at h
      · rw [if_pos h1, if_neg h2] at h ⊢
        by_cases hc : decide (path.count '/' > 1) = true
        · rw [if_pos hc]
        · rw [if_neg hc] at h ⊢
          rcases fsRm_cases (deleteKeepRemoved st path) path with hrm | hrm
          · rw [hrm]
          · rw [hrm] at h
            simp [deleteHandleExc, Resp.isError] at h
    · rw [if_neg h1] at h ⊢
      rcases fsRm_cases (deleteKeepRemoved st path) path with hrm | hrm
      · rw [hrm]
      · rw [hrm] at h
        simp [deleteHandleExc, Resp.isError] at h

/-! ## PUT branch lemmas -/

/-- The mkdir branch of PUT: lower-case, slash-terminate, write the
`.keep` marker; the result object stays empty. -/
theorem put_mkdir_eq (st : Store) (path : Str) (body : Option Str) :
    S3Handler.put st path (Headers.mk none none true) body
      = (putKey st ((if endsWithSlash (toLowerStr path) then toLowerStr path
          else toLowerStr path ++ [ '/' ]) ++ chars ".keep") [], Resp.emptyObj) := rfl

/-- Lookup of a rewritten descendant key in the descendant part of
`cpRewrites`. -/
theorem lookupKey_filterMapCp (st : Store) (src dst r : Str) (v : Bytes)
    (h : lookupKey st (src ++ '/' :: r) = some v) :
    lookupKey (st.filterMap (fun kv =>
        if (src ++ [ '/' ]).isPrefixOf kv.1 then some (dst ++ kv.1.drop src.length, kv.2)
        else none)) (dst ++ '/' :: r) = some v := by
  induction st with
  | nil => simp [lookupKey] at h
  | cons kv rest ih =>
    obtain ⟨k1, v1⟩ := kv
    by_cases hk : k1 = src ++ '/' :: r
    · subst hk
      rw [lookupKey, if_pos rfl] at h
      have hpre : (src ++ [ '/' ]).isPrefixOf (src ++ '/' :: r) = true := by
        have : src ++ '/' :: r = (src ++ [ '/' ]) ++ r := by simp
        rw [this]
        exact isPrefixOf_append_self _ _
      have hdrop : (src ++ '/' :: r).drop src.length = '/' :: r := List.drop_left src _
      rw [List.filterMap_cons]
      simp only [hpre, if_true, hdrop]
      rw [lookupKey, if_pos rfl]
      exact h
    · rw [lookupKey, if_neg hk] at h
      rw [List.filterMap_cons]
      cases hp : (src ++ [ '/' ]).isPrefixOf k1 with
      | false =>
        simp only [hp, Bool.false_eq_true, if_false]
        exact ih h
      | true =>
        obtain ⟨t1, ht1⟩ := exists_of_isPrefixOf _ _ hp
        have hk1 : k1 = src ++ '/' :: t1 := by
          rw [ht1]
          simp
        have hdrop1 : k1.drop src.length = '/' :: t1 := by
          rw [hk1]
          exact List.drop_left src _
        simp only [hp, if_true, hdrop1]
        rw [lookupKey, if_neg]
        · exact ih h
        · intro heq
          have : ('/' :: t1 : Str) = '/' :: r := List.append_cancel_left heq
          have ht1r : t1 = r := by injection this
          exact hk (by rw [hk1, ht1r])

theorem fsCp_eq_ok (st : Store) (src dst : Str) (st2 : Store)
    (h : fsCp st src dst = .ok st2) :
    st2 = cpRewrites st src dst ++
      st.filter (fun kv => !(((cpRewrites st src dst).map Prod.fst).contains kv.1)) := by
  unfold fsCp at h
  split at h
  · cases h
  · injection h with h
    exact h.symm

/-- Every object under a copy source ends up under the copy target. -/
theorem lookupKey_fsCp (st : Store) (src dst r : Str) (v : Bytes) (st2 : Store)
    (h : lookupKey st (src ++ '/' :: r) = some v) (hcp : fsCp st src dst = .ok st2) :
    lookupKey st2 (dst ++ '/' :: r) = some v := by
  rw [fsCp_eq_ok st src dst st2 hcp, lookupKey_append]
  have hfm := lookupKey_filterMapCp st src dst r v h
  have hbase : lookupKey
      (match lookupKey st src with
       | some v0 => [(dst, v0)]
       | none => []) (dst ++ '/' :: r) = none := by
    cases hb : lookupKey st src with
    | none => rfl
    | some v0 =>
      rw [lookupKey, if_neg, lookupKey]
      exact ne_of_length_ne dst (dst ++ '/' :: r) (by simp)
  rw [cpRewrites, lookupKey_append, hbase, hfm]

/-! ## Claim theorems -/

/-- C1 (counterexample): deleting the directory `bkt/dir`, which holds
its `.keep` marker and one real object, fails with the non-empty
condition but does modify the store: the marker is removed by the failed
attempt, contradicting the claim that the store is left unmodified. -/
theorem C1_counterexample :
    S3Handler.delete [(chars "bkt/dir/.keep", []), (chars "bkt/dir/x.txt", [104])]
        (chars "bkt/dir")
      = ([(chars "bkt/dir/x.txt", [104])], Resp.errDirNotEmptyDelete) ∧
    (S3Handler.delete [(chars "bkt/dir/.keep", []), (chars "bkt/dir/x.txt", [104])]
        (chars "bkt/dir")).1
      ≠ [(chars "bkt/dir/.keep", []), (chars "bkt/dir/x.txt", [104])] := by
  constructor
  · decide
  · decide

/-- C1 (amended): for every DELETE of a directory containing at least one
non-marker object, the operation fails with the `DIR_NOT_EMPTY`
condition; no non-marker object is removed, but the directory's own
`.keep` marker, when present, IS removed by the failed attempt — the
resulting store is exactly the original minus that marker — and
repeating the failed DELETE is a no-op that fails identically. -/
theorem C1_delete_nonempty_dir (st : Store) (path k t : Str) (v : Bytes)
    (hpath0 : path ≠ []) (hpath1 : path.getLast? ≠ some '/')
    (hmem : (k, v) ∈ st) (hkeq : k = path ++ '/' :: t)
    (ht0 : t ≠ []) (ht1 : t.head? ≠ some '/')
    (hkeep : k ≠ keepKey path) :
    S3Handler.delete st path
        = (removeKey st (keepKey path), Resp.errDirNotEmptyDelete) ∧
    S3Handler.delete (removeKey st (keepKey path)) path
        = (removeKey st (keepKey path), Resp.errDirNotEmptyDelete) := by
  subst hkeq
  constructor
  · exact delete_nonempty st path t v hpath0 hpath1 hmem ht0 ht1 hkeep
  · have hmem1 : (path ++ '/' :: t, v) ∈ removeKey st (keepKey path) :=
      mem_removeKey st _ (keepKey path) v hmem hkeep
    have h2 := delete_nonempty (removeKey st (keepKey path)) path t v hpath0 hpath1
      hmem1 ht0 ht1 hkeep
    rw [h2, removeKey_removeKey]

/-- C1 (witness): the amended statement at the concrete store of the
counterexample. -/
theorem C1_witness :
    S3Handler.delete [(chars "bkt/dir/.keep", []), (chars "bkt/dir/x.txt", [104])]
        (chars "bkt/dir")
      = (removeKey [(chars "bkt/dir/.keep", []), (chars "bkt/dir/x.txt", [104])]
          (keepKey (chars "bkt/dir")), Resp.errDirNotEmptyDelete) ∧
    S3Handler.delete
        (removeKey [(chars "bkt/dir/.keep", []), (chars "bkt/dir/x.txt", [104])]
          (keepKey (chars "bkt/dir"))) (chars "bkt/dir")
      = (removeKey [(chars "bkt/dir/.keep", []), (chars "bkt/dir/x.txt", [104])]
          (keepKey (chars "bkt/dir")), Resp.errDirNotEmptyDelete) :=
  C1_delete_nonempty_dir
    [(chars "bkt/dir/.keep", []), (chars "bkt/dir/x.txt", [104])]
    (chars "bkt/dir") (chars "bkt/dir/x.txt") (chars "x.txt") [104]
    (by decide) (by decide) (by decide) (by decide) (by decide) (by decide) (by decide)

/-- C2: on a GET of a file path, an `S3ResourceNotFoundException` from
the underlying lookup produces the 404 error object, and any other
exception produces the 500 error object with the exception's message
passed through; the file branch of GET is exactly this mapping applied
to the open-and-read outcome. -/
theorem C2_get_error_mapping (st : Store) (path : Str) (hh : Headers) (m : Str) :
    getFileBranch path (Except.error Exc.s3NotFound) = Resp.err404 ∧
    getFileBranch path (Except.error (Exc.other m)) = Resp.err500 m ∧
    (fileCond path hh = true →
      S3Handler.get st path hh = getFileBranch path (fsOpenRead st path)) := by
  refine ⟨rfl, rfl, fun hc => ?_⟩
  simp [S3Handler.get, hc]

/-- C2 (witness): the mapping at a concrete path and store. -/
theorem C2_witness :
    getFileBranch (chars "b/f") (Except.error Exc.s3NotFound) = Resp.err404 ∧
    getFileBranch (chars "b/f") (Except.error (Exc.other (chars "boom")))
      = Resp.err500 (chars "boom") ∧
    S3Handler.get [(chars "b/f", [1])] (chars "b/f") (Headers.mk none none false)
      = getFileBranch (chars "b/f") (fsOpenRead [(chars "b/f", [1])] (chars "b/f")) := by
  have h := C2_get_error_mapping [(chars "b/f", [1])] (chars "b/f")
    (Headers.mk none none false) (chars "boom")
  exact ⟨h.1, h.2.1, h.2.2 (by decide)⟩

/-- C3: a plain-write PUT of content `c` to a file path `p` followed by a
GET of `p` returns the stored bytes base64-encoded, and base64-decoding
that content field gives back exactly the bytes of `c`. -/
theorem C3_put_get_roundtrip (st : Store) (p c : Str)
    (h1 : fileCond p (Headers.mk none none false) = true)
    (h2 : ∀ ch ∈ c, ch.toNat < 256) :
    S3Handler.get ((S3Handler.put st p (Headers.mk none none false) (some c)).1) p
        (Headers.mk none none false)
      = Resp.fileObj p (chars "file") (encodebytes (strBytes c)) ∧
    decodebytes (encodebytes (strBytes c)) = strBytes c := by
  constructor
  · have hput : (S3Handler.put st p (Headers.mk none none false) (some c)).1
        = putKey st p (strBytes c) := rfl
    rw [hput]
    simp [S3Handler.get, h1, getFileBranch, fsOpenRead, lookupKey_putKey_self]
  · apply base64_roundtrip
    intro x hx
    obtain ⟨ch, hch, rfl⟩ := List.mem_map.mp hx
    exact h2 ch hch

/-- C3 (witness): writing `"hi"` to `b/f.txt` in the empty store and
reading it back. -/
theorem C3_witness :
    S3Handler.get ((S3Handler.put [] (chars "b/f.txt") (Headers.mk none none false)
        (some (chars "hi"))).1) (chars "b/f.txt") (Headers.mk none none false)
      = Resp.fileObj (chars "b/f.txt") (chars "file") (encodebytes (strBytes (chars "hi"))) ∧
    decodebytes (encodebytes (strBytes (chars "hi"))) = strBytes (chars "hi") :=
  C3_put_get_roundtrip [] (chars "b/f.txt") (chars "hi") (by decide) (by decide)

/-- C4: the DELETE fails with the non-empty-directory condition exactly
when the listing of `path + "/"` (taken after the marker removal)
classifies the path as a directory — more than one entry, or exactly one
entry whose key is not `path` — and that listing is more than the single
self-referencing entry with key `path + "/"`. -/
theorem C4_delete_classification (st : Store) (path : Str) (objs : List LEntry)
    (h : listdir (deleteKeepRemoved st path) (path ++ [ '/' ]) = Except.ok objs) :
    (S3Handler.delete st path).2 = Resp.errDirNotEmptyDelete ↔
      ((objs.length > 1 ∨ (objs.length = 1 ∧ firstKey objs ≠ path)) ∧
       (objs.length > 1 ∨ (objs.length = 1 ∧ firstKey objs ≠ path ++ [ '/' ]))) := by
  have i1 := listingExceeds_iff objs path
  have i2 := listingExceeds_iff objs (path ++ [ '/' ])
  unfold S3Handler.delete
  simp only [h]
  by_cases h1 : listingExceeds objs path = true
  · by_cases h2 : listingExceeds objs (path ++ [ '/' ]) = true
    · rw [if_pos h1, if_pos h2]
      simp [deleteHandleExc, i1.mp h1, i2.mp h2]
    · have hr2 : ¬(objs.length > 1 ∨ (objs.length = 1 ∧ firstKey objs ≠ path ++ [ '/' ])) :=
        fun hh => h2 (i2.mpr hh)
      rw [if_pos h1, if_neg h2]
      constructor
      · intro hresp
        exfalso
        by_cases hc : decide (path.count '/' > 1) = true
        · rw [if_pos hc] at hresp
          simp at hresp
        · rw [if_neg hc] at hresp
          rcases fsRm_cases (deleteKeepRemoved st path) path with hrm | hrm <;>
            rw [hrm] at hresp <;> simp [deleteHandleExc] at hresp
      · intro hrhs
        exact absurd hrhs.2 hr2
  · have hr1 : ¬(objs.length > 1 ∨ (objs.length = 1 ∧ firstKey objs ≠ path)) :=
      fun hh => h1 (i1.mpr hh)
    rw [if_neg h1]
    constructor
    · intro hresp
      exfalso
      rcases fsRm_cases (deleteKeepRemoved st path) path with hrm | hrm <;>
        rw [hrm] at hresp <;> simp [deleteHandleExc] at hresp
    · intro hrhs
      exact absurd hrhs.1 hr1

/-- C4 (witness): the classification at a concrete one-object listing. -/
theorem C4_witness :
    (S3Handler.delete [(chars "b/d/y", [2])] (chars "b/d")).2 = Resp.errDirNotEmptyDelete ↔
      (([LEntry.mk (chars "b/d/y") (chars "file")].length > 1 ∨
          ([LEntry.mk (chars "b/d/y") (chars "file")].length = 1 ∧
           firstKey [LEntry.mk (chars "b/d/y") (chars "file")] ≠ chars "b/d")) ∧
       ([LEntry.mk (chars "b/d/y") (chars "file")].length > 1 ∨
          ([LEntry.mk (chars "b/d/y") (chars "file")].length = 1 ∧
           firstKey [LEntry.mk (chars "b/d/y") (chars "file")] ≠ chars "b/d" ++ [ '/' ]))) :=
  C4_delete_classification [(chars "b/d/y", [2])] (chars "b/d")
    [LEntry.mk (chars "b/d/y") (chars "file")] (by rfl)

/-- C5: the authentication decision returns true exactly when either the
ambient role-based attempt succeeds and is not skipped by the
credential-file scan, or the ambient path fails and endpoint, client id
and client secret are all configured and the explicit listing raises no
exception; and the scan skips exactly when some access-key line carries
a key starting with neither expected ambient prefix. -/
theorem C5_auth_decision (credFile : Option (List Str)) (ambientOk : Bool)
    (config : S3Config) (explicitOk : Bool) :
    (AuthHandler.get credFile ambientOk config explicitOk = true ↔
      ((ambientOk = true ∧ skipAmbient credFile = false) ∨
       (¬(ambientOk = true ∧ skipAmbient credFile = false) ∧
        configured config = true ∧ explicitOk = true))) ∧
    (∀ lines : List Str, scanCredLines lines = true ↔
      ∃ l ∈ lines, ∃ v, accessKeyOfLine l = some v ∧ badKey v = true) := by
  constructor
  · unfold AuthHandler.get has_aws_s3_role_access skipAmbient
    cases credFile with
    | none =>
      cases ambientOk <;> cases explicitOk <;> cases hc : configured config <;>
        simp [hc]
    | some lines =>
      cases hs : scanCredLines lines <;> cases ambientOk <;> cases explicitOk <;>
        cases hc : configured config <;> simp [hs, hc]
  · intro lines
    induction lines with
    | nil => simp [scanCredLines]
    | cons l rest ih =>
      cases hal : accessKeyOfLine l with
      | none =>
        simp only [scanCredLines, hal]
        rw [ih]
        constructor
        · intro ⟨l1, hl1, v1, h1, h2⟩
          exact ⟨l1, List.mem_cons_of_mem l hl1, v1, h1, h2⟩
        · intro ⟨l1, hl1, v1, h1, h2⟩
          rcases List.mem_cons.mp hl1 with rfl | hl2
          · rw [hal] at h1
            cases h1
          · exact ⟨l1, hl2, v1, h1, h2⟩
      | some v0 =>
        cases hb : badKey v0 with
        | true =>
          simp only [scanCredLines, hal, hb, if_true]
          constructor
          · intro _
            exact ⟨l, List.mem_cons_self l rest, v0, hal, hb⟩
          · intro _
            trivial
        | false =>
          simp only [scanCredLines, hal, hb, Bool.false_eq_true, if_false]
          rw [ih]
          constructor
          · intro ⟨l1, hl1, v1, h1, h2⟩
            exact ⟨l1, List.mem_cons_of_mem l hl1, v1, h1, h2⟩
          · intro ⟨l1, hl1, v1, h1, h2⟩
            rcases List.mem_cons.mp hl1 with rfl | hl2
            · rw [hal] at h1
              injection h1 with h1
              rw [← h1] at h2
              rw [h2] at hb
              cases hb
            · exact ⟨l1, hl2, v1, h1, h2⟩

/-- C5 (witness): a credential file carrying an invalid access key skips
the ambient attempt. -/
theorem C5_witness :
    AuthHandler.get (some [chars "aws_access_key_id = FOO"]) true
        (S3Config.mk (chars "http://e") (chars "id") (chars "sec") []) true = true ↔
      ((true = true ∧ skipAmbient (some [chars "aws_access_key_id = FOO"]) = false) ∨
       (¬(true = true ∧ skipAmbient (some [chars "aws_access_key_id = FOO"]) = false) ∧
        configured (S3Config.mk (chars "http://e") (chars "id") (chars "sec") []) = true ∧
        true = true)) :=
  (C5_auth_decision (some [chars "aws_access_key_id = FOO"]) true
    (S3Config.mk (chars "http://e") (chars "id") (chars "sec") []) true).1

/-- C6: a GET takes the directory branch exactly when the path is empty,
ends with a slash, or the directory-hint header is present; the
directory branch maps the listing to name-path-type entries and drops
the empty-name entries (a filter of the mapped listing, so store order
is otherwise preserved); the file branch returns the object body
base64-encoded. -/
theorem C6_get_dispatch (st : Store) (path : Str) (hh : Headers) :
    (fileCond path hh = false ↔
      (path = [] ∨ endsWithSlash path = true ∨ hh.isDir = true)) ∧
    (fileCond path hh = false →
      S3Handler.get st path hh = getDirBranch (listdir st path)) ∧
    (fileCond path hh = true →
      S3Handler.get st path hh = getFileBranch path (fsOpenRead st path)) ∧
    (∀ es : List LEntry, getDirBranch (Except.ok es)
      = Resp.listing ((es.map convertS3FStoJupyterFormat).filter
          (fun x => !x.name.isEmpty))) ∧
    (∀ es : List LEntry,
      ((es.map convertS3FStoJupyterFormat).filter (fun x => !x.name.isEmpty)).Sublist
        (es.map convertS3FStoJupyterFormat)) := by
  refine ⟨?_, fun hc => ?_, fun hc => ?_, fun es => rfl, fun es => List.filter_sublist _⟩
  · cases hd : hh.isDir <;> cases hp : path.isEmpty <;> cases hs : endsWithSlash path <;>
      simp_all [fileCond, List.isEmpty_iff]
  · simp [S3Handler.get, hc]
  · simp [S3Handler.get, hc]

/-- C6 (witness): a trailing-slash GET takes the directory branch. -/
theorem C6_witness :
    S3Handler.get [(chars "b/x", [1])] (chars "b/") (Headers.mk none none false)
      = getDirBranch (listdir [(chars "b/x", [1])] (chars "b/")) :=
  (C6_get_dispatch [(chars "b/x", [1])] (chars "b/") (Headers.mk none none false)).2.1
    (by decide)

/-- C7: a PUT with a copy-source header whose source contains no slash
targets the `.keep` object under the destination instead of the literal
destination, performs the recursive copy, and responds with the
read-back of that primary target; every object under the source is
copied to the corresponding key under the target. -/
theorem C7_copy_container_keep (st : Store) (path src : Str) (mv : Option Str)
    (d : Bool) (body : Option Str) (hsrc : src.contains '/' = false) :
    (S3Handler.put st path (Headers.mk (some src) mv d) body
      = copyMoveReadBack (fsCp st src (path ++ chars "/.keep")) st
          (path ++ chars "/.keep")) ∧
    (∀ r v st2, lookupKey st (src ++ '/' :: r) = some v →
      fsCp st src (path ++ chars "/.keep") = Except.ok st2 →
      lookupKey st2 ((path ++ chars "/.keep") ++ '/' :: r) = some v) := by
  constructor
  · have hsrc1 : ¬ ('/' ∈ src) := by simpa using hsrc
    simp [S3Handler.put, hsrc1]
  · intro r v st2 hl hcp
    exact lookupKey_fsCp st src (path ++ chars "/.keep") r v st2 hl hcp

/-- C7 (witness): copying the container `mybucket` into `bkt2/dest`
places its object under the `.keep` target. -/
theorem C7_witness :
    lookupKey [(chars "bkt2/dest/.keep/a.txt", [97]), (chars "mybucket/a.txt", [97])]
        ((chars "bkt2/dest" ++ chars "/.keep") ++ '/' :: chars "a.txt") = some [97] :=
  (C7_copy_container_keep [(chars "mybucket/a.txt", [97])] (chars "bkt2/dest")
      (chars "mybucket") none false none (by decide)).2
    (chars "a.txt") [97]
    [(chars "bkt2/dest/.keep/a.txt", [97]), (chars "mybucket/a.txt", [97])]
    (by decide) (by rfl)

/-- C8: a PUT with the directory-hint header lower-cases the path,
ensures a trailing slash, writes the marker at the normalized
`path + ".keep"`, and re-invoking the operation is idempotent and never
an error. -/
theorem C8_mkdir_normalized_idempotent (st : Store) (path : Str) (body : Option Str) :
    (S3Handler.put st path (Headers.mk none none true) body
      = (putKey st ((if endsWithSlash (toLowerStr path) then toLowerStr path
          else toLowerStr path ++ [ '/' ]) ++ chars ".keep") [], Resp.emptyObj)) ∧
    endsWithSlash (if endsWithSlash (toLowerStr path) then toLowerStr path
        else toLowerStr path ++ [ '/' ]) = true ∧
    S3Handler.put (S3Handler.put st path (Headers.mk none none true) body).1 path
        (Headers.mk none none true) body
      = ((S3Handler.put st path (Headers.mk none none true) body).1, Resp.emptyObj) := by
  refine ⟨put_mkdir_eq st path body, ?_, ?_⟩
  · by_cases hS : endsWithSlash (toLowerStr path) = true
    · rw [if_pos hS]
      exact hS
    · rw [if_neg hS]
      unfold endsWithSlash
      rw [List.getLast?_concat]
      rfl
  · rw [put_mkdir_eq, put_mkdir_eq]
    simp [putKey_putKey]

/-- C8 (witness): creating the directory `B/Dir` writes the marker at
the lower-cased, slash-terminated path. -/
theorem C8_witness :
    S3Handler.put [] (chars "B/Dir") (Headers.mk none none true) none
      = (putKey []
          ((if endsWithSlash (toLowerStr (chars "B/Dir")) then toLowerStr (chars "B/Dir")
            else toLowerStr (chars "B/Dir") ++ [ '/' ]) ++ chars ".keep") [],
         Resp.emptyObj) :=
  (C8_mkdir_normalized_idempotent [] (chars "B/Dir") none).1

/-- C9: the mkdir branch of PUT, a PUT with no matching control header
and no body, and every successful DELETE all respond with the empty JSON
object. -/
theorem C9_empty_responses :
    (∀ (st : Store) (path : Str) (body : Option Str),
      (S3Handler.put st path (Headers.mk none none true) body).2 = Resp.emptyObj) ∧
    (∀ (st : Store) (path : Str),
      (S3Handler.put st path (Headers.mk none none false) none).2 = Resp.emptyObj ∧
      (S3Handler.put st path (Headers.mk none none false) none).1 = st) ∧
    (∀ (st : Store) (path : Str),
      (S3Handler.delete st path).2.isError = false →
      (S3Handler.delete st path).2 = Resp.emptyObj) := by
  refine ⟨fun st path body => rfl, fun st path => ⟨rfl, rfl⟩, fun st path h => ?_⟩
  exact delete_success_resp st path h

/-- C9 (witness): a successful DELETE of a plain object responds with
the empty object. -/
theorem C9_witness :
    (S3Handler.delete [(chars "b/x", [1])] (chars "b/x")).2 = Resp.emptyObj :=
  C9_empty_responses.2.2 [(chars "b/x", [1])] (chars "b/x") (by decide)

/-- C10: a PUT with a move-source header attempts the move on the
literal source and destination paths even when the source contains no
slash; no `.keep` object is substituted for the destination, and the
response is the read-back of the literal destination. -/
theorem C10_move_literal_path (st : Store) (path src : Str) (d : Bool)
    (body : Option Str) (_hsrc : src.contains '/' = false) :
    (S3Handler.put st path (Headers.mk none (some src) d) body
      = copyMoveReadBack (fsMv st src path) st path) ∧
    (∀ st2 c, fsMv st src path = Except.ok st2 → lookupKey st2 path = some c →
      (S3Handler.put st path (Headers.mk none (some src) d) body).2
        = Resp.fileObj path (chars "file") (encodebytes c)) := by
  constructor
  · rfl
  · intro st2 c hmv hl
    show (copyMoveReadBack (fsMv st src path) st path).2 = _
    rw [hmv]
    simp [copyMoveReadBack, fsOpenRead, hl]

/-- C10 (witness): moving the container `mybucket` (stored as a single
object) to `b2/dest` reads back the literal destination. -/
theorem C10_witness :
    (S3Handler.put [(chars "mybucket", [5])] (chars "b2/dest")
        (Headers.mk none (some (chars "mybucket")) false) none).2
      = Resp.fileObj (chars "b2/dest") (chars "file") (encodebytes [5]) :=
  (C10_move_literal_path [(chars "mybucket", [5])] (chars "b2/dest") (chars "mybucket")
      false none (by decide)).2
    [(chars "b2/dest", [5])] [5] (by rfl) (by decide)

end S3B
